import Mathlib

/-!
Verification of the part-description matching engine: a shallow embedding of
the specification catalog, the token classifier `parseToken`, the line
tokenizer `tokenizeLine` and the field aggregator `populateSpecFields`,
followed by theorems about them.  Each matcher is a hand-translation of the
anchored regular expression used by the source rule; the translation is
documented next to every definition.
-/

namespace PartSpec

/-- One rule that matches a token and extracts a standardized value.
Mirrors `IFieldMatcher` (fields `kind` and `match`). -/
structure FieldMatcher where
  kind : String
  matchFn : String → Option String

/-- One field of the part specification together with its matching rules.
Mirrors `ISpecField`. -/
structure SpecField where
  kind : String
  matchers : List FieldMatcher

/-- First maximal run of digits in a character list, mirroring the JavaScript
unanchored search `s.match(/\d+/)`; `none` when the string has no digit
(in which case the JavaScript indexing expression evaluates to `undefined`). -/
def firstDigitRun : List Char → Option String
  | [] => none
  | c :: rest =>
    if c.isDigit then some (String.mk (c :: rest.takeWhile Char.isDigit))
    else firstDigitRun rest

/-- PRODUCT TYPE / FLANGE rule: regex `^((FLANGE)|(FLNG)|(FLG))$`. -/
def flangeMatch (s : String) : Option String :=
  if s = "FLANGE" ∨ s = "FLNG" ∨ s = "FLG" then some "FLANGE" else none

/-- PRODUCT TYPE / PIPE rule: regex `^PIPE$`. -/
def pipeMatch (s : String) : Option String :=
  if s = "PIPE" then some "PIPE" else none

/-- SIZE / INCHES rule: regex `^(\d+(?:\.\d)?)\"$`, returning the captured
number (greedy digits, then an optional dot followed by exactly one digit)
without the closing double quote. -/
def inchesMatch (s : String) : Option String :=
  if (s.data.takeWhile Char.isDigit).isEmpty then none
  else
    match s.data.dropWhile Char.isDigit with
    | [q] => if q = '"' then some (String.mk (s.data.takeWhile Char.isDigit)) else none
    | [p, d, q] =>
      if p = '.' && d.isDigit && q = '"' then
        some (String.mk (s.data.takeWhile Char.isDigit ++ [p, d]))
      else none
    | _ => none

/-- The finite language of `^((WE?LD ?NE?CK( FLA?NGE?)?)|(WNF?)(WELD))$`:
each `?` doubles the alternatives, and the second top-level alternative is
the concatenation `(WNF?)(WELD)`. -/
def weldNeckForms : List String :=
  ((["", "E"].flatMap fun e1 =>
    (["", " "].flatMap fun sp =>
      (["", "E"].flatMap fun e2 =>
        ("" :: (["", "A"].flatMap fun a =>
          ["", "E"].map fun e3 => " FL" ++ a ++ "NG" ++ e3)).map fun tail =>
          "W" ++ e1 ++ "LD" ++ sp ++ "N" ++ e2 ++ "CK" ++ tail))))
  ++ ["WNWELD", "WNFWELD"]

/-- FLANGE TYPE / WELD NECK rule: membership in the finite language of the
anchored regex, value `WELD NECK`. -/
def weldNeckMatch (s : String) : Option String :=
  if s ∈ weldNeckForms then some "WELD NECK" else none

/-- The remainder of `cs` after the literal character sequence `lit`, when
`cs` starts with `lit`; `none` otherwise.  This models a regex engine
consuming a literal. -/
def dropLit (lit cs : List Char) : Option (List Char) :=
  if cs.take lit.length = lit then some (cs.drop lit.length) else none

/-- Whole-token test of `^((\d\d\d\#)|(\d\d\d (LB)|(PSI))|(CL \d\d\d))$`.
Note the grouping: the second top-level alternative is `\d\d\d (LB)`, with
`(PSI)` an alternative on its own, so the recognized forms are three digits
followed by `#`, three digits followed by ` LB`, the bare word `PSI`, and
`CL ` followed by three digits; the four are combined by the regex's
alternation, modelled as boolean disjunction. -/
def poundsTest (cs : List Char) : Bool :=
  (match cs with
   | [a, b, c, d] => a.isDigit && b.isDigit && c.isDigit && d = '#'
   | _ => false) ||
  (match cs with
   | [a, b, c, d, e, f] => a.isDigit && b.isDigit && c.isDigit && d = ' ' && e = 'L' && f = 'B'
   | _ => false) ||
  decide (cs = ['P', 'S', 'I']) ||
  (match cs with
   | [a, b, c, d, e, f] => a = 'C' && b = 'L' && c = ' ' && d.isDigit && e.isDigit && f.isDigit
   | _ => false)

/-- PRESSURE RATING / POUNDS rule: when the anchored test succeeds the value
is the first digit run of the token, `(s.match(/\d+/) || [])[0]`; for the
form `PSI` there is no digit run, modelling the JavaScript `undefined`. -/
def poundsMatch (s : String) : Option String :=
  if poundsTest s.data then firstDigitRun s.data else none

/-- Continuation of `^S(?:CH(?:EDULE)?)?[\- ](\d+)$` after the leading
`S`/`SCH`/`SCHEDULE` part: one separator (hyphen or space) followed by one
or more digits, which are the captured value. -/
def schedTail : List Char → Option String
  | c :: rest =>
    if (c = '-' || c = ' ') && !rest.isEmpty && rest.all Char.isDigit then
      some (String.mk rest)
    else none
  | [] => none

/-- BORE SCHEDULE SIZE / SCHEDULE INCHES rule: `^S(?:CH(?:EDULE)?)?[\- ](\d+)$`,
returning the captured digits.  The three optional-group readings are tried
longest first; at most one can succeed, because after `S` or `SCH` the next
character of a longer reading is a letter, never a separator. -/
def schedInchesMatch (s : String) : Option String :=
  ((dropLit ['S', 'C', 'H', 'E', 'D', 'U', 'L', 'E'] s.data).bind schedTail).orElse fun _ =>
  ((dropLit ['S', 'C', 'H'] s.data).bind schedTail).orElse fun _ =>
  (dropLit ['S'] s.data).bind schedTail

/-- BORE SCHEDULE SIZE / SCHEDULE STANDARD rule:
`^(S(CH(EDULE)?)? (STD)|(STANDARD))$`.  The top-level alternation inside the
anchors splits as `S(CH(EDULE)?)? (STD)` versus `(STANDARD)`, so the language
is `S STD`, `SCH STD`, `SCHEDULE STD` and the bare word `STANDARD`. -/
def scheduleStandardMatch (s : String) : Option String :=
  if (s = "S STD" ∨ s = "SCH STD" ∨ s = "SCHEDULE STD") ∨ s = "STANDARD" then
    some "STANDARD"
  else none

/-- BORE SCHEDULE SIZE / SCHEDULE EXTRA HEAVY rule:
`^((XH)|(XHB)|(EXTRA HEAVY))$`. -/
def extraHeavyMatch (s : String) : Option String :=
  if s = "XH" ∨ s = "XHB" ∨ s = "EXTRA HEAVY" then some "EXTRA HEAVY" else none

/-- Tail test of `^(ASME B\d+\.?\d+?)$` after the literal `ASME B`: either at
least two digits (greedy `\d+` then lazy `\d+?`, the dot skipped), or
nonempty digits, a dot, then nonempty digits. -/
def asmeTail (cs : List Char) : Bool :=
  (decide (2 ≤ cs.length) && cs.all Char.isDigit) ||
  (!(cs.takeWhile Char.isDigit).isEmpty &&
    match cs.dropWhile Char.isDigit with
    | d :: rest => d = '.' && !rest.isEmpty && rest.all Char.isDigit
    | _ => false)

/-- MATERIAL / ASME STANDARD rule: `^(ASME B\d+\.?\d+?)$`, returning the whole
matched string `m[0]`, which by anchoring is the token itself. -/
def asmeMatch (s : String) : Option String :=
  match dropLit ['A', 'S', 'M', 'E', ' ', 'B'] s.data with
  | some rest => if asmeTail rest then some s else none
  | none => none

/-- Digit block of the STEEL TYPE core: three digits then an optional `N`. -/
def steelDigits : List Char → Bool
  | [a, b, c] => a.isDigit && b.isDigit && c.isDigit
  | [a, b, c, n] => a.isDigit && b.isDigit && c.isDigit && n = 'N'
  | _ => false

/-- Core of `^(?:FCS )?(S?A\d\d\dN?)$`: optional `S`, then `A`, then three
digits, then an optional `N`; the optional `S` gives two alternative
readings, modelled as boolean disjunction. -/
def steelCore (cs : List Char) : Bool :=
  (match cs with
   | s :: a :: rest => s = 'S' && a = 'A' && steelDigits rest
   | _ => false) ||
  (match cs with
   | a :: rest => a = 'A' && steelDigits rest
   | _ => false)

/-- MATERIAL / STEEL TYPE rule: `^(?:FCS )?(S?A\d\d\dN?)$`, returning the
captured core without the `FCS ` part.  When the core fails after consuming
`FCS `, the regex engine retries without consuming it; that retry can never
succeed since the core cannot start with `F`, but it is kept to mirror the
backtracking faithfully. -/
def steelTypeMatch (s : String) : Option String :=
  match dropLit ['F', 'C', 'S', ' '] s.data with
  | some rest =>
      if steelCore rest then some (String.mk rest)
      else if steelCore s.data then some (String.mk s.data) else none
  | none => if steelCore s.data then some (String.mk s.data) else none

/-- MATERIAL / CARBON STEEL rule: `^((CS)|(CARBON( STEEL)?))$`. -/
def carbonSteelMatch (s : String) : Option String :=
  if s = "CS" ∨ s = "CARBON" ∨ s = "CARBON STEEL" then some "CARBON STEEL" else none

/-- The static field/rule catalog `SPECIFICATION`, in source order. -/
def SPECIFICATION : List SpecField := [
  ⟨"PRODUCT TYPE", [⟨"FLANGE", flangeMatch⟩, ⟨"PIPE", pipeMatch⟩]⟩,
  ⟨"SIZE", [⟨"INCHES", inchesMatch⟩]⟩,
  ⟨"FLANGE TYPE", [⟨"WELD NECK", weldNeckMatch⟩]⟩,
  ⟨"PRESSURE RATING", [⟨"POUNDS", poundsMatch⟩]⟩,
  ⟨"BORE SCHEDULE SIZE",
    [⟨"SCHEDULE INCHES", schedInchesMatch⟩,
     ⟨"SCHEDULE STANDARD", scheduleStandardMatch⟩,
     ⟨"SCHEDULE EXTRA HEAVY", extraHeavyMatch⟩]⟩,
  ⟨"MATERIAL",
    [⟨"ASME STANDARD", asmeMatch⟩,
     ⟨"STEEL TYPE", steelTypeMatch⟩,
     ⟨"CARBON STEEL", carbonSteelMatch⟩]⟩]

/-- One match instance, mirroring `ITokenMatch`. -/
structure TokenMatch where
  spec_field_kind : String
  field_match_kind : String
  standardized_value : String
deriving DecidableEq, Repr

/-- A token together with all its matches, mirroring `ITokenMatchResult`. -/
structure TokenMatchResult where
  token : String
  matchList : List TokenMatch
deriving DecidableEq, Repr

/-- JavaScript truthiness filter applied by `parseToken` to the value a
matcher returns: `null` and `undefined` (both modelled as `none`) and the
empty string are falsy. -/
def truthy : Option String → Option String
  | some v => if v = "" then none else some v
  | none => none

/-- `parseToken`: run every rule of every field, in catalog order, recording a
`TokenMatch` for each truthy returned value. -/
def parseToken (token : String) : TokenMatchResult :=
  ⟨token,
    SPECIFICATION.flatMap fun spec_field =>
      spec_field.matchers.filterMap fun field_matcher =>
        (truthy (field_matcher.matchFn token)).map fun value =>
          ⟨spec_field.kind, field_matcher.kind, value⟩⟩

/-- Splitting on the delimiter regex `/, ?/`: each comma, together with at
most one following space, separates candidates.  Mirrors the JavaScript
`line.split(/, ?/)`. -/
def splitCands : List Char → List Char → List String
  | acc, [] => [String.mk acc.reverse]
  | acc, ',' :: ' ' :: rest => String.mk acc.reverse :: splitCands [] rest
  | acc, ',' :: rest => String.mk acc.reverse :: splitCands [] rest
  | acc, c :: rest => splitCands (c :: acc) rest

/-- The comma split of a whole line. -/
def splitCommaOptSpace (line : String) : List String :=
  splitCands [] line.data

/-- The candidate-combination loop of `tokenizeLine`, processing the parsed
comma-split candidates left to right: try the 3-way merge, then the 2-way
merge (whose string the source builds with a stray closing brace, written
`\x7d` here), else emit the single candidate. -/
def tokenizeGo : List TokenMatchResult → List String
  | [] => []
  | [a] => [a.token]
  | [a, b] =>
    let s := a.token ++ " " ++ b.token ++ "\x7d"
    if 0 < (parseToken s).matchList.length then [s]
    else a.token :: tokenizeGo [b]
  | a :: b :: c :: rest =>
    let s3 := a.token ++ " " ++ b.token ++ " " ++ c.token
    if 0 < (parseToken s3).matchList.length then s3 :: tokenizeGo rest
    else
      let s2 := a.token ++ " " ++ b.token ++ "\x7d"
      if 0 < (parseToken s2).matchList.length then s2 :: tokenizeGo (c :: rest)
      else a.token :: tokenizeGo (b :: c :: rest)

/-- `tokenizeLine`: split on commas, parse each candidate, then repair
over-split candidates with the greedy merge loop. -/
def tokenizeLine (line : String) : List String :=
  tokenizeGo ((splitCommaOptSpace line).map parseToken)

/-- `parseLine`: classify every final token of the line. -/
def parseLine (line : String) : List TokenMatchResult :=
  (tokenizeLine line).map parseToken

/-- One populated entry, mirroring the anonymous record inside
`IPopulatedSpecField`. -/
structure PopulatedMatch where
  kind : String
  token : String
  value : String
deriving DecidableEq, Repr

/-- A spec field populated with all matching tokens, mirroring
`IPopulatedSpecField`. -/
structure PopulatedSpecField where
  kind : String
  matchList : List PopulatedMatch
deriving DecidableEq, Repr

/-- `populateSpecFields`: group all matches by catalog field, in catalog
order, then append the synthetic `UNRECOGNIZED` field holding every token
whose result has no matches. -/
def populateSpecFields (match_results : List TokenMatchResult) : List PopulatedSpecField :=
  (SPECIFICATION.map fun spec_field =>
    ⟨spec_field.kind,
      match_results.flatMap fun mr =>
        mr.matchList.filterMap fun m =>
          if m.spec_field_kind = spec_field.kind then
            some ⟨m.field_match_kind, mr.token, m.standardized_value⟩
          else none⟩)
  ++ [⟨"UNRECOGNIZED",
        (match_results.filter fun mr => mr.matchList.length = 0).map fun mr =>
          ⟨"UNRECOGNIZED", mr.token, mr.token⟩⟩]

/-- All rules of the catalog, flattened in traversal order. -/
def allMatchers : List FieldMatcher :=
  SPECIFICATION.flatMap fun spec_field => spec_field.matchers

/-- The candidate-combination loop with the 2-way merge branch removed: only
the 3-way merge and single-candidate emission remain.  `tokenizeGo` is proved
extensionally equal to this function, showing that the 2-way branch never
emits a token. -/
def tokenizeGoNoTwo : List TokenMatchResult → List String
  | [] => []
  | [a] => [a.token]
  | [a, b] => a.token :: tokenizeGoNoTwo [b]
  | a :: b :: c :: rest =>
    let s3 := a.token ++ " " ++ b.token ++ " " ++ c.token
    if 0 < (parseToken s3).matchList.length then s3 :: tokenizeGoNoTwo rest
    else a.token :: tokenizeGoNoTwo (b :: c :: rest)

/-!  ## Helper lemmas  -/

/-- `dropLit` succeeds exactly on lists that start with the literal. -/
theorem dropLit_eq_some {lit cs rest : List Char} :
    dropLit lit cs = some rest ↔ cs = lit ++ rest := by
  constructor
  · intro h
    unfold dropLit at h
    split at h
    · rename_i ht
      obtain rfl : cs.drop lit.length = rest := by simpa using h
      nth_rewrite 1 [← List.take_append_drop lit.length cs]
      rw [ht]
    · exact absurd h (by simp)
  · rintro rfl
    unfold dropLit
    rw [List.take_left, if_pos rfl, List.drop_left]

/-- The truthiness filter keeps exactly the nonempty produced values. -/
theorem truthy_eq_some {o : Option String} {v : String} :
    truthy o = some v ↔ o = some v ∧ v ≠ "" := by
  cases o with
  | none => simp [truthy]
  | some w =>
    by_cases hw : w = ""
    · subst hw
      simp only [truthy, if_pos rfl]
      constructor
      · intro h; exact absurd h (by simp)
      · rintro ⟨hv, hne⟩
        exact absurd (Option.some.inj hv).symm hne
    · simp only [truthy, if_neg hw, Option.some.injEq]
      constructor
      · rintro rfl; exact ⟨rfl, hw⟩
      · rintro ⟨hv, _⟩; exact hv

/-- Membership in a classification result, unfolded to the responsible rule. -/
theorem mem_parseToken {s : String} {m : TokenMatch} :
    m ∈ (parseToken s).matchList ↔
      ∃ sf ∈ SPECIFICATION, ∃ fm ∈ sf.matchers, ∃ v,
        truthy (fm.matchFn s) = some v ∧ ⟨sf.kind, fm.kind, v⟩ = m := by
  simp [parseToken, List.mem_flatMap, List.mem_filterMap, Option.map_eq_some']

/-- The last element of an appended nonempty list. -/
theorem getLast?_append_right {l l2 : List Char} (h : l2 ≠ []) :
    (l ++ l2).getLast? = l2.getLast? := by
  rw [List.getLast?_append]
  obtain ⟨d, hd⟩ := Option.isSome_iff_exists.mp (List.getLast?_isSome.mpr h)
  rw [hd]
  rfl

/-- A nonempty list all of whose elements satisfy `p` ends in an element
satisfying `p`. -/
theorem getLast?_all {p : Char → Bool} {l : List Char} (hne : l ≠ [])
    (hall : l.all p = true) : ∃ d, l.getLast? = some d ∧ p d = true := by
  obtain ⟨d, hd⟩ := Option.isSome_iff_exists.mp (List.getLast?_isSome.mpr hne)
  exact ⟨d, hd, List.all_eq_true.mp hall d (List.mem_of_mem_getLast? hd)⟩

/-- Length of a `filterMap` whose function is a guarded `some`. -/
theorem length_filterMap_guard {α β : Type} (p : α → Prop) [DecidablePred p]
    (f : α → β) (l : List α) :
    (l.filterMap fun a => if p a then some (f a) else none).length
      = (l.filter fun a => p a).length := by
  induction l with
  | nil => rfl
  | cons a l ih =>
    by_cases h : p a <;> simp [List.filterMap_cons, List.filter_cons, h, ih]

/-!  ## Facts about the individual matchers  -/

/-- The PRODUCT TYPE / FLANGE rule succeeds exactly on its three words. -/
theorem flangeMatch_eq_some {s v : String} :
    flangeMatch s = some v ↔ ((s = "FLANGE" ∨ s = "FLNG" ∨ s = "FLG") ∧ v = "FLANGE") := by
  unfold flangeMatch
  split <;> rename_i h <;> simp [h, eq_comm]

/-- The PRODUCT TYPE / PIPE rule succeeds exactly on `PIPE`. -/
theorem pipeMatch_eq_some {s v : String} :
    pipeMatch s = some v ↔ (s = "PIPE" ∧ v = "PIPE") := by
  unfold pipeMatch
  split <;> rename_i h <;> simp [h, eq_comm]

/-- The FLANGE TYPE / WELD NECK rule succeeds exactly on the finite language
of its regex. -/
theorem weldNeckMatch_eq_some {s v : String} :
    weldNeckMatch s = some v ↔ (s ∈ weldNeckForms ∧ v = "WELD NECK") := by
  unfold weldNeckMatch
  split <;> rename_i h <;> simp [h, eq_comm]

/-- The BORE SCHEDULE SIZE / SCHEDULE STANDARD rule succeeds exactly on its
four words (note: bare `STANDARD` is one of them, `SCH STANDARD` is not). -/
theorem scheduleStandardMatch_eq_some {s v : String} :
    scheduleStandardMatch s = some v ↔
      (((s = "S STD" ∨ s = "SCH STD" ∨ s = "SCHEDULE STD") ∨ s = "STANDARD") ∧
        v = "STANDARD") := by
  unfold scheduleStandardMatch
  split <;> rename_i h <;> simp [h, eq_comm]

/-- The BORE SCHEDULE SIZE / SCHEDULE EXTRA HEAVY rule succeeds exactly on
its three words. -/
theorem extraHeavyMatch_eq_some {s v : String} :
    extraHeavyMatch s = some v ↔
      ((s = "XH" ∨ s = "XHB" ∨ s = "EXTRA HEAVY") ∧ v = "EXTRA HEAVY") := by
  unfold extraHeavyMatch
  split <;> rename_i h <;> simp [h, eq_comm]

/-- The MATERIAL / CARBON STEEL rule succeeds exactly on its three words. -/
theorem carbonSteelMatch_eq_some {s v : String} :
    carbonSteelMatch s = some v ↔
      ((s = "CS" ∨ s = "CARBON" ∨ s = "CARBON STEEL") ∧ v = "CARBON STEEL") := by
  unfold carbonSteelMatch
  split <;> rename_i h <;> simp [h, eq_comm]

/-- Inversion of the POUNDS whole-token test: the four recognized forms. -/
theorem poundsTest_shape (cs : List Char) (h : poundsTest cs = true) :
    (∃ a b c, a.isDigit ∧ b.isDigit ∧ c.isDigit ∧
      (cs = [a, b, c, '#'] ∨ cs = [a, b, c, ' ', 'L', 'B'] ∨ cs = ['C', 'L', ' ', a, b, c]))
    ∨ cs = ['P', 'S', 'I'] := by
  unfold poundsTest at h
  simp only [Bool.or_eq_true] at h
  rcases h with ((h | h) | h) | h
  · split at h
    · rename_i a b c d
      simp only [Bool.and_eq_true, decide_eq_true_eq] at h
      exact Or.inl ⟨a, b, c, h.1.1.1, h.1.1.2, h.1.2, Or.inl (by rw [h.2])⟩
    · exact absurd h (by simp)
  · split at h
    · rename_i a b c d e f
      simp only [Bool.and_eq_true, decide_eq_true_eq] at h
      obtain ⟨⟨⟨⟨⟨ha, hb⟩, hc⟩, hd⟩, he⟩, hf⟩ := h
      exact Or.inl ⟨a, b, c, ha, hb, hc, Or.inr (Or.inl (by rw [hd, he, hf]))⟩
    · exact absurd h (by simp)
  · simp only [decide_eq_true_eq] at h
    exact Or.inr h
  · split at h
    · rename_i a b c d e f
      simp only [Bool.and_eq_true, decide_eq_true_eq] at h
      obtain ⟨⟨⟨⟨⟨ha, hb⟩, hc⟩, hd⟩, he⟩, hf⟩ := h
      exact Or.inl ⟨d, e, f, hd, he, hf, Or.inr (Or.inr (by rw [ha, hb, hc]))⟩
    · exact absurd h (by simp)

/-- The POUNDS test accepts the `###​#` form. -/
theorem poundsTest_shapeA (a b c : Char) (ha : a.isDigit) (hb : b.isDigit)
    (hc : c.isDigit) : poundsTest [a, b, c, '#'] = true := by
  unfold poundsTest
  simp [ha, hb, hc]

/-- The POUNDS test accepts the `### LB` form. -/
theorem poundsTest_shapeB (a b c : Char) (ha : a.isDigit) (hb : b.isDigit)
    (hc : c.isDigit) : poundsTest [a, b, c, ' ', 'L', 'B'] = true := by
  unfold poundsTest
  simp [ha, hb, hc]

/-- The POUNDS test accepts the `CL ###` form. -/
theorem poundsTest_shapeC (a b c : Char) (ha : a.isDigit) (hb : b.isDigit)
    (hc : c.isDigit) : poundsTest ['C', 'L', ' ', a, b, c] = true := by
  unfold poundsTest
  simp [ha, hb, hc]

/-- A POUNDS-accepted token no longer passes the test when an `X` is
prepended. -/
theorem poundsTest_prependX (cs : List Char) (h : poundsTest cs = true) :
    poundsTest ('X' :: cs) = false := by
  rcases poundsTest_shape cs h with ⟨a, b, c, _, _, _, rfl | rfl | rfl⟩ | rfl <;> rfl

/-- First digit run of the `###​#` form. -/
theorem firstDigitRun_shapeA (a b c : Char) (ha : a.isDigit) (hb : b.isDigit)
    (hc : c.isDigit) : firstDigitRun [a, b, c, '#'] = some (String.mk [a, b, c]) := by
  unfold firstDigitRun
  rw [if_pos ha]
  simp [List.takeWhile_cons, hb, hc, (by decide : ('#' : Char).isDigit = false)]

/-- First digit run of the `### LB` form. -/
theorem firstDigitRun_shapeB (a b c : Char) (ha : a.isDigit) (hb : b.isDigit)
    (hc : c.isDigit) :
    firstDigitRun [a, b, c, ' ', 'L', 'B'] = some (String.mk [a, b, c]) := by
  unfold firstDigitRun
  rw [if_pos ha]
  simp [List.takeWhile_cons, hb, hc, (by decide : (' ' : Char).isDigit = false)]

/-- First digit run of a three-digit list. -/
theorem firstDigitRun_shapeEnd (a b c : Char) (ha : a.isDigit) (hb : b.isDigit)
    (hc : c.isDigit) : firstDigitRun [a, b, c] = some (String.mk [a, b, c]) := by
  unfold firstDigitRun
  rw [if_pos ha]
  simp [List.takeWhile_cons, hb, hc]

/-- First digit run of the `CL ###` form. -/
theorem firstDigitRun_shapeC (a b c : Char) (ha : a.isDigit) (hb : b.isDigit)
    (hc : c.isDigit) :
    firstDigitRun ['C', 'L', ' ', a, b, c] = some (String.mk [a, b, c]) := by
  have h1 : firstDigitRun ['C', 'L', ' ', a, b, c] = firstDigitRun [a, b, c] := rfl
  rw [h1]
  exact firstDigitRun_shapeEnd a b c ha hb hc

/-- Full characterization of the PRESSURE RATING / POUNDS rule: it produces a
value exactly for the three digit-bearing forms (the `PSI` form passes the
regex test but yields no digits, hence no value), and the value is the three
digits. -/
theorem poundsMatch_eq_some {s v : String} :
    poundsMatch s = some v ↔
      ∃ a b c, a.isDigit ∧ b.isDigit ∧ c.isDigit ∧ v = String.mk [a, b, c] ∧
        (s.data = [a, b, c, '#'] ∨ s.data = [a, b, c, ' ', 'L', 'B'] ∨
         s.data = ['C', 'L', ' ', a, b, c]) := by
  constructor
  · intro h
    unfold poundsMatch at h
    split at h
    · rename_i ht
      rcases poundsTest_shape _ ht with ⟨a, b, c, ha, hb, hc, hshape⟩ | hpsi
      · refine ⟨a, b, c, ha, hb, hc, ?_, hshape⟩
        rcases hshape with h1 | h1 | h1 <;> rw [h1] at h
        · rw [firstDigitRun_shapeA a b c ha hb hc] at h
          exact (Option.some.inj h).symm
        · rw [firstDigitRun_shapeB a b c ha hb hc] at h
          exact (Option.some.inj h).symm
        · rw [firstDigitRun_shapeC a b c ha hb hc] at h
          exact (Option.some.inj h).symm
      · rw [hpsi] at h
        rw [(rfl : firstDigitRun ['P', 'S', 'I'] = none)] at h
        exact Option.noConfusion h
    · exact Option.noConfusion h
  · rintro ⟨a, b, c, ha, hb, hc, rfl, h1 | h1 | h1⟩ <;> unfold poundsMatch <;> rw [h1]
    · rw [if_pos (poundsTest_shapeA a b c ha hb hc), firstDigitRun_shapeA a b c ha hb hc]
    · rw [if_pos (poundsTest_shapeB a b c ha hb hc), firstDigitRun_shapeB a b c ha hb hc]
    · rw [if_pos (poundsTest_shapeC a b c ha hb hc), firstDigitRun_shapeC a b c ha hb hc]

theorem orElse_none_left {α : Type} (f : Unit → Option α) :
    (none : Option α).orElse f = f () := rfl

theorem schedTail_eq_some {cs : List Char} {v : String} (h : schedTail cs = some v) :
    ∃ c rest, cs = c :: rest ∧ rest ≠ [] ∧ rest.all Char.isDigit = true := by
  cases cs with
  | nil => exact Option.noConfusion h
  | cons c rest =>
    simp only [schedTail] at h
    split at h
    · rename_i hcond
      simp only [Bool.and_eq_true, Bool.not_eq_true', List.isEmpty_eq_false] at hcond
      exact ⟨c, rest, rfl, hcond.1.2, hcond.2⟩
    · exact Option.noConfusion h

theorem schedBranch {lit : List Char} {s : String} {v : String}
    (h : (dropLit lit s.data).bind schedTail = some v) :
    ∃ d, s.data.getLast? = some d ∧ d.isDigit = true := by
  rcases hdl : dropLit lit s.data with _ | rest
  · rw [hdl] at h
    exact Option.noConfusion h
  · rw [hdl, Option.some_bind] at h
    obtain ⟨c, rest2, rfl, hne, hall⟩ := schedTail_eq_some h
    obtain ⟨d, hd, hdig⟩ := getLast?_all hne hall
    refine ⟨d, ?_, hdig⟩
    rw [dropLit_eq_some.mp hdl, getLast?_append_right (by simp),
        (show (c :: rest2) = [c] ++ rest2 from rfl), getLast?_append_right hne, hd]

theorem schedInchesMatch_lastDigit {s v : String} (h : schedInchesMatch s = some v) :
    ∃ d, s.data.getLast? = some d ∧ d.isDigit = true := by
  unfold schedInchesMatch at h
  rcases h8 : (dropLit ['S', 'C', 'H', 'E', 'D', 'U', 'L', 'E'] s.data).bind schedTail
      with _ | v1
  · rw [h8, orElse_none_left] at h
    rcases h3 : (dropLit ['S', 'C', 'H'] s.data).bind schedTail with _ | v2
    · rw [h3, orElse_none_left] at h
      exact schedBranch h
    · exact schedBranch h3
  · exact schedBranch h8

theorem asmeTail_decomp {cs : List Char} (h : asmeTail cs = true) :
    (cs ≠ [] ∧ cs.all Char.isDigit = true) ∨
    (∃ tail, cs.dropWhile Char.isDigit = '.' :: tail ∧ tail ≠ [] ∧
      tail.all Char.isDigit = true) := by
  unfold asmeTail at h
  simp only [Bool.or_eq_true, Bool.and_eq_true, decide_eq_true_eq, Bool.not_eq_true',
    List.isEmpty_eq_false] at h
  rcases h with ⟨hlen, hall⟩ | ⟨_, hmatch⟩
  · refine Or.inl ⟨?_, hall⟩
    intro hnil
    rw [hnil] at hlen
    simp at hlen
  · right
    split at hmatch
    · rename_i d tail heq
      simp only [Bool.and_eq_true, decide_eq_true_eq, Bool.not_eq_true',
        List.isEmpty_eq_false] at hmatch
      exact ⟨tail, by rw [heq, hmatch.1.1], hmatch.1.2, hmatch.2⟩
    · exact absurd hmatch (by simp)

theorem asmeMatch_lastDigit {s v : String} (h : asmeMatch s = some v) :
    ∃ d, s.data.getLast? = some d ∧ d.isDigit = true := by
  unfold asmeMatch at h
  split at h
  · rename_i rest heq
    split at h
    · rename_i ht
      have hdata : s.data = ['A', 'S', 'M', 'E', ' ', 'B'] ++ rest := dropLit_eq_some.mp heq
      rcases asmeTail_decomp ht with ⟨hne, hall⟩ | ⟨tail, hdw, hne, hall⟩
      · obtain ⟨d, hd, hdig⟩ := getLast?_all hne hall
        exact ⟨d, by rw [hdata, getLast?_append_right hne, hd], hdig⟩
      · obtain ⟨d, hd, hdig⟩ := getLast?_all hne hall
        refine ⟨d, ?_, hdig⟩
        have hrest : rest = rest.takeWhile Char.isDigit ++ ('.' :: tail) := by
          rw [← hdw]
          exact (List.takeWhile_append_dropWhile Char.isDigit rest).symm
        rw [hdata, getLast?_append_right (by rw [hrest]; simp), hrest,
            getLast?_append_right (by simp),
            (show ('.' :: tail) = ['.'] ++ tail from rfl),
            getLast?_append_right hne, hd]
    · exact Option.noConfusion h
  · exact Option.noConfusion h

theorem steelDigits_last {cs : List Char} (h : steelDigits cs = true) :
    ∃ d, cs.getLast? = some d ∧ (d.isDigit = true ∨ d = 'N') := by
  unfold steelDigits at h
  split at h
  · rename_i a b c
    simp only [Bool.and_eq_true] at h
    exact ⟨c, rfl, Or.inl h.2⟩
  · rename_i a b c n
    simp only [Bool.and_eq_true, decide_eq_true_eq] at h
    exact ⟨n, rfl, Or.inr h.2⟩
  · exact absurd h (by simp)

theorem steelCore_last {cs : List Char} (h : steelCore cs = true) :
    ∃ d, cs.getLast? = some d ∧ (d.isDigit = true ∨ d = 'N') := by
  unfold steelCore at h
  simp only [Bool.or_eq_true] at h
  rcases h with h | h
  · split at h
    · rename_i x a rest
      simp only [Bool.and_eq_true, decide_eq_true_eq] at h
      obtain ⟨d, hd, hp⟩ := steelDigits_last h.2
      have hne : rest ≠ [] := by
        rintro rfl
        exact Option.noConfusion hd
      exact ⟨d, by rw [(show x :: a :: rest = [x, a] ++ rest from rfl),
        getLast?_append_right hne, hd], hp⟩
    · exact absurd h (by simp)
  · split at h
    · rename_i a rest
      simp only [Bool.and_eq_true, decide_eq_true_eq] at h
      obtain ⟨d, hd, hp⟩ := steelDigits_last h.2
      have hne : rest ≠ [] := by
        rintro rfl
        exact Option.noConfusion hd
      exact ⟨d, by rw [(show a :: rest = [a] ++ rest from rfl),
        getLast?_append_right hne, hd], hp⟩
    · exact absurd h (by simp)

theorem steelTypeMatch_last {s v : String} (h : steelTypeMatch s = some v) :
    ∃ d, s.data.getLast? = some d ∧ (d.isDigit = true ∨ d = 'N') := by
  unfold steelTypeMatch at h
  split at h
  · rename_i rest heq
    split at h
    · rename_i hcore
      obtain ⟨d, hd, hp⟩ := steelCore_last hcore
      have hne : rest ≠ [] := by
        rintro rfl
        exact Option.noConfusion hd
      exact ⟨d, by rw [dropLit_eq_some.mp heq, getLast?_append_right hne, hd], hp⟩
    · split at h
      · rename_i hcore2
        exact steelCore_last hcore2
      · exact Option.noConfusion h
  · split at h
    · rename_i hcore
      exact steelCore_last hcore
    · exact Option.noConfusion h

theorem flangeMatch_rbrace {s : String} (h : s.data.getLast? = some '\x7d') :
    flangeMatch s = none := by
  cases hm : flangeMatch s with
  | none => rfl
  | some v =>
    rcases (flangeMatch_eq_some.mp hm).1 with rfl | rfl | rfl <;> exact absurd h (by decide)

theorem pipeMatch_rbrace {s : String} (h : s.data.getLast? = some '\x7d') :
    pipeMatch s = none := by
  cases hm : pipeMatch s with
  | none => rfl
  | some v =>
    obtain ⟨rfl, -⟩ := pipeMatch_eq_some.mp hm
    exact absurd h (by decide)

theorem weldNeckMatch_rbrace {s : String} (h : s.data.getLast? = some '\x7d') :
    weldNeckMatch s = none := by
  cases hm : weldNeckMatch s with
  | none => rfl
  | some v =>
    have hall : ∀ u ∈ weldNeckForms, ¬u.data.getLast? = some '\x7d' := by decide
    exact absurd h (hall s (weldNeckMatch_eq_some.mp hm).1)

theorem scheduleStandardMatch_rbrace {s : String} (h : s.data.getLast? = some '\x7d') :
    scheduleStandardMatch s = none := by
  cases hm : scheduleStandardMatch s with
  | none => rfl
  | some v =>
    rcases (scheduleStandardMatch_eq_some.mp hm).1 with (rfl | rfl | rfl) | rfl <;>
      exact absurd h (by decide)

theorem extraHeavyMatch_rbrace {s : String} (h : s.data.getLast? = some '\x7d') :
    extraHeavyMatch s = none := by
  cases hm : extraHeavyMatch s with
  | none => rfl
  | some v =>
    rcases (extraHeavyMatch_eq_some.mp hm).1 with rfl | rfl | rfl <;> exact absurd h (by decide)

theorem carbonSteelMatch_rbrace {s : String} (h : s.data.getLast? = some '\x7d') :
    carbonSteelMatch s = none := by
  cases hm : carbonSteelMatch s with
  | none => rfl
  | some v =>
    rcases (carbonSteelMatch_eq_some.mp hm).1 with rfl | rfl | rfl <;> exact absurd h (by decide)

theorem inchesMatch_lastQuote {s v : String} (h : inchesMatch s = some v) :
    s.data.getLast? = some '"' := by
  unfold inchesMatch at h
  split at h
  · exact Option.noConfusion h
  · split at h
    · rename_i q heq
      split at h
      · rename_i hq
        have hsplit := List.takeWhile_append_dropWhile Char.isDigit s.data
        rw [heq] at hsplit
        rw [← hsplit, List.getLast?_concat, hq]
      · exact Option.noConfusion h
    · rename_i p d q heq
      split at h
      · rename_i hpq
        simp only [Bool.and_eq_true, decide_eq_true_eq] at hpq
        have hsplit := List.takeWhile_append_dropWhile Char.isDigit s.data
        rw [heq] at hsplit
        rw [← hsplit, getLast?_append_right (by simp), hpq.2]
        rfl
      · exact Option.noConfusion h
    · exact Option.noConfusion h

theorem inchesMatch_rbrace {s : String} (h : s.data.getLast? = some '\x7d') :
    inchesMatch s = none := by
  cases hm : inchesMatch s with
  | none => rfl
  | some v =>
    rw [inchesMatch_lastQuote hm] at h
    exact absurd (Option.some.inj h) (by decide)

theorem poundsMatch_rbrace {s : String} (h : s.data.getLast? = some '\x7d') :
    poundsMatch s = none := by
  cases hm : poundsMatch s with
  | none => rfl
  | some v =>
    obtain ⟨a, b, c, ha, hb, hc, -, h1 | h1 | h1⟩ := poundsMatch_eq_some.mp hm <;>
      rw [h1] at h
    · simp only [List.getLast?_cons_cons, List.getLast?_singleton] at h
      exact absurd (Option.some.inj h) (by decide)
    · simp only [List.getLast?_cons_cons, List.getLast?_singleton] at h
      exact absurd (Option.some.inj h) (by decide)
    · simp only [List.getLast?_cons_cons, List.getLast?_singleton] at h
      rw [Option.some.inj h] at hc
      exact absurd hc (by decide)

theorem schedInchesMatch_rbrace {s : String} (h : s.data.getLast? = some '\x7d') :
    schedInchesMatch s = none := by
  cases hm : schedInchesMatch s with
  | none => rfl
  | some v =>
    obtain ⟨d, hd, hdig⟩ := schedInchesMatch_lastDigit hm
    rw [hd] at h
    rw [Option.some.inj h] at hdig
    exact absurd hdig (by decide)

theorem asmeMatch_rbrace {s : String} (h : s.data.getLast? = some '\x7d') :
    asmeMatch s = none := by
  cases hm : asmeMatch s with
  | none => rfl
  | some v =>
    obtain ⟨d, hd, hdig⟩ := asmeMatch_lastDigit hm
    rw [hd] at h
    rw [Option.some.inj h] at hdig
    exact absurd hdig (by decide)

theorem steelTypeMatch_rbrace {s : String} (h : s.data.getLast? = some '\x7d') :
    steelTypeMatch s = none := by
  cases hm : steelTypeMatch s with
  | none => rfl
  | some v =>
    obtain ⟨d, hd, hp⟩ := steelTypeMatch_last hm
    rw [hd] at h
    rcases hp with hdig | hn
    · rw [Option.some.inj h] at hdig
      exact absurd hdig (by decide)
    · rw [Option.some.inj h] at hn
      exact absurd hn (by decide)

theorem parseToken_rbrace {s : String} (h : s.data.getLast? = some '\x7d') :
    (parseToken s).matchList = [] := by
  rw [List.eq_nil_iff_forall_not_mem]
  intro m hm
  rw [mem_parseToken] at hm
  obtain ⟨sf, hsf, fm, hfm, v, htr, -⟩ := hm
  have hnone : fm.matchFn s = none := by
    simp only [SPECIFICATION, List.mem_cons, List.not_mem_nil, or_false] at hsf
    rcases hsf with rfl | rfl | rfl | rfl | rfl | rfl <;>
      simp only [List.mem_cons, List.not_mem_nil, or_false] at hfm
    · rcases hfm with rfl | rfl
      · exact flangeMatch_rbrace h
      · exact pipeMatch_rbrace h
    · rcases hfm with rfl
      exact inchesMatch_rbrace h
    · rcases hfm with rfl
      exact weldNeckMatch_rbrace h
    · rcases hfm with rfl
      exact poundsMatch_rbrace h
    · rcases hfm with rfl | rfl | rfl
      · exact schedInchesMatch_rbrace h
      · exact scheduleStandardMatch_rbrace h
      · exact extraHeavyMatch_rbrace h
    · rcases hfm with rfl | rfl | rfl
      · exact asmeMatch_rbrace h
      · exact steelTypeMatch_rbrace h
      · exact carbonSteelMatch_rbrace h
  rw [hnone] at htr
  exact Option.noConfusion htr

theorem append_rbrace_last (x : String) :
    (x ++ "\x7d").data.getLast? = some '\x7d' := by
  rw [String.data_append]
  exact List.getLast?_concat _

theorem flangeMatch_prependX {s v : String} (h : flangeMatch s = some v) :
    flangeMatch ("X" ++ s) = none := by
  rcases (flangeMatch_eq_some.mp h).1 with rfl | rfl | rfl <;> decide

theorem pipeMatch_prependX {s v : String} (h : pipeMatch s = some v) :
    pipeMatch ("X" ++ s) = none := by
  obtain ⟨rfl, -⟩ := pipeMatch_eq_some.mp h
  decide

theorem weldNeckMatch_prependX {s v : String} (h : weldNeckMatch s = some v) :
    weldNeckMatch ("X" ++ s) = none := by
  have hall : ∀ u ∈ weldNeckForms, ("X" ++ u) ∉ weldNeckForms := by decide
  unfold weldNeckMatch
  rw [if_neg (hall s (weldNeckMatch_eq_some.mp h).1)]

theorem scheduleStandardMatch_prependX {s v : String} (h : scheduleStandardMatch s = some v) :
    scheduleStandardMatch ("X" ++ s) = none := by
  rcases (scheduleStandardMatch_eq_some.mp h).1 with (rfl | rfl | rfl) | rfl <;> decide

theorem extraHeavyMatch_prependX {s v : String} (h : extraHeavyMatch s = some v) :
    extraHeavyMatch ("X" ++ s) = none := by
  rcases (extraHeavyMatch_eq_some.mp h).1 with rfl | rfl | rfl <;> decide

theorem carbonSteelMatch_prependX {s v : String} (h : carbonSteelMatch s = some v) :
    carbonSteelMatch ("X" ++ s) = none := by
  rcases (carbonSteelMatch_eq_some.mp h).1 with rfl | rfl | rfl <;> decide

theorem poundsMatch_prependX {s v : String} (h : poundsMatch s = some v) :
    poundsMatch ("X" ++ s) = none := by
  have ht : poundsTest s.data = true := by
    unfold poundsMatch at h
    split at h
    · rename_i ht
      exact ht
    · exact Option.noConfusion h
  show (if poundsTest ('X' :: s.data) = true then firstDigitRun ('X' :: s.data) else none)
      = none
  rw [poundsTest_prependX s.data ht]
  simp

theorem steelCore_prependX (s : String) : steelCore ("X" ++ s).data = false := by
  cases h : s.data <;>
    simp [steelCore, (rfl : ("X" ++ s).data = 'X' :: s.data), h]

theorem tokenizeGo_eq_noTwo : ∀ cands, tokenizeGo cands = tokenizeGoNoTwo cands
  | [] => rfl
  | [a] => rfl
  | [a, b] => by
    simp only [tokenizeGo, tokenizeGoNoTwo]
    rw [parseToken_rbrace (append_rbrace_last (a.token ++ " " ++ b.token))]
    simp only [List.length_nil, Nat.lt_irrefl, if_false]
  | a :: b :: c :: rest => by
    by_cases h3 : 0 < (parseToken (a.token ++ " " ++ b.token ++ " " ++ c.token)).matchList.length
    · simp only [tokenizeGo, tokenizeGoNoTwo, if_pos h3]
      rw [tokenizeGo_eq_noTwo rest]
    · simp only [tokenizeGo, tokenizeGoNoTwo, if_neg h3]
      rw [parseToken_rbrace (append_rbrace_last (a.token ++ " " ++ b.token))]
      simp only [List.length_nil, Nat.lt_irrefl, if_false]
      rw [tokenizeGo_eq_noTwo (b :: c :: rest)]

theorem inchesMatch_prependX (s : String) : inchesMatch ("X" ++ s) = none := rfl

theorem schedInchesMatch_prependX (s : String) : schedInchesMatch ("X" ++ s) = none := rfl

theorem asmeMatch_prependX (s : String) : asmeMatch ("X" ++ s) = none := rfl

theorem steelTypeMatch_prependX (s : String) : steelTypeMatch ("X" ++ s) = none := by
  unfold steelTypeMatch
  have h1 : dropLit ['F', 'C', 'S', ' '] ("X" ++ s).data = none := by
    unfold dropLit
    rw [if_neg]
    simp [(rfl : ("X" ++ s).data = 'X' :: s.data)]
  rw [h1, steelCore_prependX s]
  simp

theorem anchored_prepend :
    ∀ fm ∈ allMatchers, ∀ s v : String, fm.matchFn s = some v →
      fm.matchFn ("X" ++ s) = none := by
  intro fm hfm
  simp only [allMatchers, SPECIFICATION, List.flatMap_cons, List.flatMap_nil,
    List.append_nil, List.mem_append, List.mem_cons, List.not_mem_nil, or_false] at hfm
  rcases hfm with (rfl | rfl) | rfl | rfl | rfl | (rfl | rfl | rfl) | rfl | rfl | rfl
  · exact fun s v h => flangeMatch_prependX h
  · exact fun s v h => pipeMatch_prependX h
  · exact fun s v h => inchesMatch_prependX s
  · exact fun s v h => weldNeckMatch_prependX h
  · exact fun s v h => poundsMatch_prependX h
  · exact fun s v h => schedInchesMatch_prependX s
  · exact fun s v h => scheduleStandardMatch_prependX h
  · exact fun s v h => extraHeavyMatch_prependX h
  · exact fun s v h => asmeMatch_prependX s
  · exact fun s v h => steelTypeMatch_prependX s
  · exact fun s v h => carbonSteelMatch_prependX h

/-- C7: for every input list of token match results, `populateSpecFields`
appends one synthetic UNRECOGNIZED field after the catalog fields; the
UNRECOGNIZED field holds exactly the zero-match results, once each, in order,
with the token text as value, and nothing else; and each catalog field holds
exactly one entry per `TokenMatch` naming that field, drawn from the input
results in order. -/
theorem spec_c7_aggregation_partition (rs : List TokenMatchResult) :
    ∃ pfs unrec,
      populateSpecFields rs = pfs ++ [unrec] ∧
      pfs.length = SPECIFICATION.length ∧
      unrec.kind = "UNRECOGNIZED" ∧
      unrec.matchList = (rs.filter fun mr => mr.matchList.length = 0).map
        (fun mr => ⟨"UNRECOGNIZED", mr.token, mr.token⟩) ∧
      (∀ e ∈ unrec.matchList, ∃ mr ∈ rs, mr.matchList = [] ∧
        e = ⟨"UNRECOGNIZED", mr.token, mr.token⟩) ∧
      (∀ sf ∈ SPECIFICATION, ∃ pf ∈ pfs, pf.kind = sf.kind ∧
        (∀ e, e ∈ pf.matchList ↔ ∃ mr ∈ rs, ∃ m ∈ mr.matchList,
          m.spec_field_kind = sf.kind ∧
          e = ⟨m.field_match_kind, mr.token, m.standardized_value⟩) ∧
        pf.matchList.length = (rs.map fun mr =>
          (mr.matchList.filter fun m => m.spec_field_kind = sf.kind).length).sum) := by
  refine ⟨_, _, rfl, by simp, rfl, rfl, ?_, ?_⟩
  · intro e he
    simp only [List.mem_map, List.mem_filter] at he
    obtain ⟨mr, ⟨hmr, hz⟩, rfl⟩ := he
    exact ⟨mr, hmr, List.length_eq_zero.mp (by simpa using hz), rfl⟩
  · intro sf hsf
    refine ⟨⟨sf.kind, _⟩, List.mem_map_of_mem _ hsf, rfl, ?_, ?_⟩
    · intro e
      simp only [List.mem_flatMap, List.mem_filterMap]
      constructor
      · rintro ⟨mr, hmr, m, hm, hif⟩
        split at hif
        · rename_i hcond
          exact ⟨mr, hmr, m, hm, hcond, (Option.some.inj hif).symm⟩
        · exact Option.noConfusion hif
      · rintro ⟨mr, hmr, m, hm, hcond, rfl⟩
        exact ⟨mr, hmr, m, hm, by rw [if_pos hcond]⟩
    · rw [List.length_flatMap]
      apply congrArg List.sum
      apply List.map_congr_left
      intro mr hmr
      exact length_filterMap_guard _ _ _

/-- C1 counterexample: the claim that the pipeline on the line
`FLG BLIND, RF,CL 150, FCS A105 ASME B16.5, 20"` yields MATERIAL matches
including `A105` is false: the MATERIAL field receives no entry at all
for this line. -/
theorem spec_c1_counterexample :
    ¬ ∃ pf ∈ populateSpecFields
        (parseLine "FLG BLIND, RF,CL 150, FCS A105 ASME B16.5, 20\""),
      pf.kind = "MATERIAL" ∧ ∃ e ∈ pf.matchList, e.value = "A105" := by decide

/-- C1 (amended): on the line `FLG BLIND, RF,CL 150, FCS A105 ASME B16.5, 20"`
the full pipeline produces an empty MATERIAL field; the candidate
`FCS A105 ASME B16.5` (a single comma-split candidate, since the line has no
comma inside it) matches no rule and lands in UNRECOGNIZED together with
`FLG BLIND` and `RF`, while `CL 150` and `20"` populate PRESSURE RATING and
SIZE. -/
theorem spec_c1_pipeline_output :
    populateSpecFields (parseLine "FLG BLIND, RF,CL 150, FCS A105 ASME B16.5, 20\"") =
      [⟨"PRODUCT TYPE", []⟩,
       ⟨"SIZE", [⟨"INCHES", "20\"", "20"⟩]⟩,
       ⟨"FLANGE TYPE", []⟩,
       ⟨"PRESSURE RATING", [⟨"POUNDS", "CL 150", "150"⟩]⟩,
       ⟨"BORE SCHEDULE SIZE", []⟩,
       ⟨"MATERIAL", []⟩,
       ⟨"UNRECOGNIZED",
         [⟨"UNRECOGNIZED", "FLG BLIND", "FLG BLIND"⟩,
          ⟨"UNRECOGNIZED", "RF", "RF"⟩,
          ⟨"UNRECOGNIZED", "FCS A105 ASME B16.5", "FCS A105 ASME B16.5"⟩]⟩] := by decide

/-- C2: the claim says the 2-way window classifies exactly
`candidate[i] ++ " " ++ candidate[i+1]`; the code instead classifies that
string with a stray closing brace appended.  At the line `CL,150` the
intended merge `CL 150` classifies with a match, yet the code tests
`CL 150` + brace, which matches nothing, so the line stays split. -/
theorem spec_c2_stray_brace :
    tokenizeLine "CL,150" = ["CL", "150"] ∧
    (parseToken ("CL" ++ " " ++ "150")).matchList ≠ [] ∧
    (parseToken ("CL" ++ " " ++ "150" ++ "\x7d")).matchList = [] := by decide

/-- C3 counterexample: `1500` consists of exactly four digits, yet the
PRESSURE RATING / POUNDS rule returns nothing for it, contradicting the
claimed `####` form. -/
theorem spec_c3_counterexample :
    ("1500").data.all Char.isDigit = true ∧ ("1500").length = 4 ∧
    poundsMatch "1500" = none ∧ (parseToken "1500").matchList = [] := by decide

/-- C3 (amended): the PRESSURE RATING / POUNDS rule produces a value exactly
for whole tokens of the forms three digits + `#`, three digits + ` LB`, and
`CL ` + three digits, and the value is the three digits; the bare word `PSI`
passes the regex test but carries no digits, so no value is produced for it
(and neither `### PSI`, `###CL` nor four bare digits are recognized). -/
theorem spec_c3_pounds_rule :
    (∀ s v : String, poundsMatch s = some v ↔
      ∃ a b c, a.isDigit ∧ b.isDigit ∧ c.isDigit ∧ v = String.mk [a, b, c] ∧
        (s.data = [a, b, c, '#'] ∨ s.data = [a, b, c, ' ', 'L', 'B'] ∨
         s.data = ['C', 'L', ' ', a, b, c])) ∧
    poundsTest ("PSI").data = true ∧ poundsMatch "PSI" = none :=
  ⟨fun _ _ => poundsMatch_eq_some, by decide, by decide⟩

/-- C4 counterexample: `SCH STANDARD` does not match the SCHEDULE STANDARD
rule, while the bare word `STANDARD` does - both contrary to the claim. -/
theorem spec_c4_counterexample :
    scheduleStandardMatch "SCH STANDARD" = none ∧
    scheduleStandardMatch "STANDARD" = some "STANDARD" := by decide

/-- C4 (amended): the BORE SCHEDULE SIZE / SCHEDULE STANDARD rule returns
`STANDARD` exactly for the whole tokens `S STD`, `SCH STD`, `SCHEDULE STD`
and the bare word `STANDARD`; the second alternative of the regex is bare
`STANDARD`, not `S`/`SCH`/`SCHEDULE` followed by `STANDARD`. -/
theorem spec_c4_schedule_standard_rule (s v : String) :
    scheduleStandardMatch s = some v ↔
      (((s = "S STD" ∨ s = "SCH STD" ∨ s = "SCHEDULE STD") ∨ s = "STANDARD") ∧
        v = "STANDARD") :=
  scheduleStandardMatch_eq_some

/-- C5: every rule in the catalog is anchored to the entire candidate: a
token that matches never still matches after extending it on the left with
another character, and in particular `XFLANGE` produces no match at all
while `FLANGE` produces exactly the PRODUCT TYPE / FLANGE match. -/
theorem spec_c5_rules_anchored :
    (∀ fm ∈ allMatchers, ∀ s v : String, fm.matchFn s = some v →
      fm.matchFn ("X" ++ s) = none) ∧
    (parseToken "FLANGE").matchList = [⟨"PRODUCT TYPE", "FLANGE", "FLANGE"⟩] ∧
    (parseToken "XFLANGE").matchList = [] :=
  ⟨anchored_prepend, by decide, by decide⟩

theorem spec_c5_witness : flangeMatch ("X" ++ "FLANGE") = none :=
  spec_c5_rules_anchored.1 ⟨"FLANGE", flangeMatch⟩ (by simp [allMatchers, SPECIFICATION])
    "FLANGE" "FLANGE" (by decide)

/-- C6: at any cursor position with at least three candidates remaining, the
tokenizer loop classifies the 3-way merge first, and when it has at least one
match the merge is emitted as one final token with the cursor advancing by
three, before the 2-way merge or the single token is considered - with no
backtracking. -/
theorem spec_c6_three_way_first (a b c : TokenMatchResult) (rest : List TokenMatchResult)
    (h : (parseToken (a.token ++ " " ++ b.token ++ " " ++ c.token)).matchList ≠ []) :
    tokenizeGo (a :: b :: c :: rest) =
      (a.token ++ " " ++ b.token ++ " " ++ c.token) :: tokenizeGo rest := by
  have hpos : 0 < (parseToken (a.token ++ " " ++ b.token ++ " " ++ c.token)).matchList.length :=
    List.length_pos.mpr h
  simp only [tokenizeGo, if_pos hpos]

theorem spec_c6_witness :
    tokenizeGo [⟨"WELD", []⟩, ⟨"NECK", []⟩, ⟨"FLANGE", []⟩] = ["WELD NECK FLANGE"] :=
  (spec_c6_three_way_first ⟨"WELD", []⟩ ⟨"NECK", []⟩ ⟨"FLANGE", []⟩ [] (by decide)).trans
    (by decide)

theorem spec_c7_witness :
    ∃ pfs unrec, populateSpecFields [⟨"RF", []⟩] = pfs ++ [unrec] ∧
      unrec.matchList = [⟨"UNRECOGNIZED", "RF", "RF"⟩] := by
  obtain ⟨pfs, unrec, heq, -, -, hu, -, -⟩ := spec_c7_aggregation_partition [⟨"RF", []⟩]
  refine ⟨pfs, unrec, heq, ?_⟩
  rw [hu]
  decide

/-- C8: `parseToken`, `tokenizeLine`, `parseLine` and `populateSpecFields`
are total Lean functions over all strings; the empty string tokenizes to the
single empty token, which classifies with zero matches and appears in the
UNRECOGNIZED field with the empty value. -/
theorem spec_c8_totality_empty :
    (∀ s : String, (parseToken s).token = s) ∧
    (parseToken "").matchList = [] ∧
    tokenizeLine "" = [""] ∧
    parseLine "" = [⟨"", []⟩] ∧
    populateSpecFields (parseLine "") =
      [⟨"PRODUCT TYPE", []⟩, ⟨"SIZE", []⟩, ⟨"FLANGE TYPE", []⟩, ⟨"PRESSURE RATING", []⟩,
       ⟨"BORE SCHEDULE SIZE", []⟩, ⟨"MATERIAL", []⟩,
       ⟨"UNRECOGNIZED", [⟨"UNRECOGNIZED", "", ""⟩]⟩] :=
  ⟨fun _ => rfl, by decide, by decide, by decide, by decide⟩

/-- C9: no rule matches any string ending in a closing brace, so the
classification of the brace-suffixed 2-way merge string never yields a
match; consequently the tokenizer loop is extensionally equal to the loop
with the 2-way branch deleted - every final token is a raw comma-split
candidate or a 3-way merge. -/
theorem spec_c9_two_way_branch_dead :
    (∀ s : String, s.data.getLast? = some '\x7d' → (parseToken s).matchList = []) ∧
    (∀ cands : List TokenMatchResult, tokenizeGo cands = tokenizeGoNoTwo cands) ∧
    (∀ line : String,
      tokenizeLine line = tokenizeGoNoTwo ((splitCommaOptSpace line).map parseToken)) :=
  ⟨fun _ h => parseToken_rbrace h, tokenizeGo_eq_noTwo, fun _ => tokenizeGo_eq_noTwo _⟩

theorem spec_c9_witness :
    (parseToken "CL 150\x7d").matchList = [] ∧
    tokenizeGo [⟨"CL", []⟩, ⟨"150", []⟩] = tokenizeGoNoTwo [⟨"CL", []⟩, ⟨"150", []⟩] :=
  ⟨spec_c9_two_way_branch_dead.1 "CL 150\x7d" (by decide),
   spec_c9_two_way_branch_dead.2.1 [⟨"CL", []⟩, ⟨"150", []⟩]⟩

/-- C10: a `TokenMatch` is only recorded for a truthy value, so every
standardized value in any classification result is a nonempty string; in
particular `PSI` passes the POUNDS regular-expression test but its digit
extraction comes up empty, so `PSI` classifies with no matches. -/
theorem spec_c10_values_truthy :
    (∀ s : String, ∀ m ∈ (parseToken s).matchList, m.standardized_value ≠ "") ∧
    poundsTest ("PSI").data = true ∧
    firstDigitRun ("PSI").data = none ∧
    (parseToken "PSI").matchList = [] := by
  refine ⟨?_, by decide, by decide, by decide⟩
  intro s m hm
  rw [mem_parseToken] at hm
  obtain ⟨sf, -, fm, -, v, htr, hme⟩ := hm
  have hv := (truthy_eq_some.mp htr).2
  rw [← hme]
  exact hv

theorem spec_c10_witness :
    (⟨"PRODUCT TYPE", "FLANGE", "FLANGE"⟩ : TokenMatch).standardized_value ≠ "" :=
  spec_c10_values_truthy.1 "FLG" ⟨"PRODUCT TYPE", "FLANGE", "FLANGE"⟩ (by decide)

end PartSpec
